import Mathlib

/-! Gravity bridge denominations.

A shallow embedding of `module/x/gravity/types/erc20.go`.

Go strings are embedded as Lean `String`s (sequences of Unicode code points, i.e. the
well-formed UTF-8 Go strings).  The Go `error` interface is embedded as `Option Error`
(`none` is `nil`).  A Go function that can panic on a slice index returns a `Run`.

The two validators called by the file, `sdk.ValidateDenom` (cosmos-sdk) and
`ValidateEthAddress` (x/gravity/types/ethereum.go), are not part of the embedded file:
`ValidateGravityDenom` and `ERC20ToDenom.Validate` take them as arguments.
-/

/-! ## Go values -/

/-- Go error values, as far as the embedded file builds them. -/
inductive Error where
  /-- a registered sentinel error, identified by its name -/
  | sentinel (name : String)
  /-- an error carrying only a message: `errors.New(msg)`, `fmt.Errorf` without `%w` -/
  | text (msg : String)
  /-- the value of `sdkerrors.Wrapf(cause, msg)` -/
  | Wrapf (cause : Error) (msg : String)
  /-- the value of `fmt.Errorf(msg + "%w", cause)` -/
  | Errorf (msg : String) (cause : Error)
  deriving DecidableEq

/-- Go `errors.Is(e, target)`: `target` is `e` or is in the chain of causes of `e`. -/
def Error.Is : Error → Error → Bool
  | .sentinel n, target => decide (Error.sentinel n = target)
  | .text m, target => decide (Error.text m = target)
  | .Wrapf c m, target => decide (Error.Wrapf c m = target) || c.Is target
  | .Errorf m c, target => decide (Error.Errorf m c = target) || c.Is target

/-- The outcome of running a Go function that may panic. -/
inductive Run (α : Type) where
  | returns (v : α)
  | panics
  deriving DecidableEq

/-! ## The Go standard library functions used by the file -/

/-- Go `unicode.IsSpace`: the Latin-1 spaces `\t \n \v \f \r`, space, U+0085, U+00A0, and
the other code points with the White_Space property. -/
def unicode.IsSpace (r : Char) : Bool :=
  let n := r.toNat
  if n ≤ 0xFF then
    n = 0x09 || n = 0x0A || n = 0x0B || n = 0x0C || n = 0x0D || n = 0x20 || n = 0x85 || n = 0xA0
  else
    n = 0x1680 || (0x2000 ≤ n && n ≤ 0x200A) || n = 0x2028 || n = 0x2029 || n = 0x202F
      || n = 0x205F || n = 0x3000

/-- Go `len(s)`: the number of bytes of `s`. -/
def len (s : String) : Nat := s.utf8ByteSize

/-- Go `strings.HasPrefix(s, pre)`. -/
def strings.HasPrefix (s pre : String) : Bool := pre.data.isPrefixOf s.data

/-- Go `strings.TrimPrefix(s, pre)`: `s[len(pre):]` when `s` starts with `pre`, else `s`. -/
def strings.TrimPrefix (s pre : String) : String :=
  if strings.HasPrefix s pre then ⟨s.data.drop pre.data.length⟩ else s

/-- Go `strings.TrimSpace(s)`: `s` without its leading and trailing white space. -/
def strings.TrimSpace (s : String) : String :=
  ⟨((s.data.dropWhile unicode.IsSpace).reverse.dropWhile unicode.IsSpace).reverse⟩

/-- Go `strings.Index(s, sep)` on code points: the position of the first occurrence of
`sep` in `s`, `none` for Go's `-1`. -/
def strings.Index : List Char → List Char → Option Nat
  | [], sep => if sep.isPrefixOf [] then some 0 else none
  | c :: cs, sep =>
    if sep.isPrefixOf (c :: cs) then some 0 else (strings.Index cs sep).map (· + 1)

/-- Go `strings.Contains(s, substr)`: `strings.Index(s, substr) >= 0`. -/
def strings.Contains (s substr : String) : Bool := (strings.Index s.data substr.data).isSome

/-- The loop of Go `strings.genSplit` for a non-empty separator: at most `k` cuts. -/
def strings.splitLoop : Nat → List Char → List Char → List String
  | 0, s, _ => [⟨s⟩]
  | k + 1, s, sep =>
    match strings.Index s sep with
    | none => [⟨s⟩]
    | some m => ⟨s.take m⟩ :: strings.splitLoop k (s.drop (m + sep.length)) sep

/-- Go `strings.SplitN(s, sep, n)` for a non-empty `sep` and `n ≥ 0`: `nil` when `n = 0`,
otherwise at most `n` parts (`n` capped at `len(s) + 1`), the last one the unsplit rest. -/
def strings.SplitN (s sep : String) (n : Nat) : List String :=
  if n = 0 then []
  else
    let n := if n > len s + 1 then len s + 1 else n
    strings.splitLoop (n - 1) s.data sep.data

/-! ## Declarations of the package that the file uses -/

/-- Modelled from the spec: the module name, declared outside `erc20.go`; the bridged form
is `gravity/{address}` (so the doc comments of `ValidateGravityDenom` and `GravityDenom`). -/
def ModuleName : String := "gravity"

/-- Modelled from the spec: the `MalformedIdentifier` error, the sentinel
`ErrInvalidGravityDenom` registered outside `erc20.go`; only its identity is used. -/
def ErrInvalidGravityDenom : Error := .sentinel "ErrInvalidGravityDenom"

/-- The class `[0-9a-fA-F]`. -/
def isHexDigit (c : Char) : Bool := "0123456789abcdefABCDEF".data.contains c

/-- The class `[a-zA-Z]`. -/
def isLetter (c : Char) : Bool :=
  "abcdefghijklmnopqrstuvwxyzABCDEFGHIJKLMNOPQRSTUVWXYZ".data.contains c

/-- The class `[a-zA-Z0-9/]`. -/
def isDenomChar (c : Char) : Bool := isLetter c || "0123456789/".data.contains c

/-- Modelled from the spec: the foreign-address validator `ValidateEthAddress`, declared
outside `erc20.go`: it "validates a 42-character, `0x`-prefixed, 20-byte hex-encoded
address string", i.e. accepts exactly `0x` followed by 40 hexadecimal digits. -/
def ValidateEthAddress (a : String) : Option Error :=
  if a.data.length = 42 ∧ strings.HasPrefix a "0x" ∧ (a.data.drop 2).all isHexDigit then none
  else some (.text ("invalid address: " ++ a))

/-- Modelled from the spec: the base-denomination validator `sdk.ValidateDenom` of the
cosmos-sdk, a "generic token-identifier syntax check (length, character set)": a letter
followed by 2 to 127 letters, digits or `/` (3 to 128 characters); it rejects the empty
denomination. -/
def sdk.ValidateDenom (denom : String) : Option Error :=
  match denom.data with
  | [] => some (.text ("invalid denom: " ++ denom))
  | c :: cs =>
    if isLetter c ∧ 2 ≤ cs.length ∧ cs.length ≤ 127 ∧ cs.all isDenomChar then none
    else some (.text ("invalid denom: " ++ denom))

/-! ## erc20.go -/

/-- The constant `GravityDenomPrefix`: the prefix for all assets minted by this module. -/
def GravityDenomPrefix : String := ModuleName

/-- The constant `GravityDenomSeparator`: the separator for gravity denoms. -/
def GravityDenomSeparator : String := "/"

/-- The constant `ETHContractAddressLen`: the length of contract address strings. -/
def ETHContractAddressLen : Nat := 42

/-- The constant `GravityDenomLen`: the length of the denoms generated by the module. -/
def GravityDenomLen : Nat :=
  len GravityDenomPrefix + len GravityDenomSeparator + ETHContractAddressLen

/-- The error of the first `switch` case of `ValidateGravityDenom`:
`sdkerrors.Wrapf(ErrInvalidGravityDenom, "denomination should be prefixed with the format
'%s%s{address}'", GravityDenomPrefix, GravityDenomSeparator)`. -/
def malformedDenom : Error :=
  .Wrapf ErrInvalidGravityDenom
    ("denomination should be prefixed with the format '" ++ GravityDenomPrefix
      ++ GravityDenomSeparator ++ "\x7baddress\x7d'")

/-- The function `ValidateGravityDenom`, with the two validators it calls as arguments. -/
def ValidateGravityDenom (ValidateDenom ValidateEthAddress : String → Option Error)
    (denom : String) : Run (Option Error) :=
  match ValidateDenom denom with
  | some err => .returns (some err)
  | none =>
    let denomSplit := strings.SplitN denom GravityDenomSeparator 2
    if strings.TrimSpace denom = ""
        ∨ (denomSplit.length = 1 ∧ denomSplit[0]? = some GravityDenomPrefix)
        ∨ (denomSplit.length = 2 ∧ (denomSplit[0]? ≠ some GravityDenomPrefix
            ∨ (denomSplit[1]?).map strings.TrimSpace = some "")) then
      .returns (some malformedDenom)
    else
      match denomSplit[0]? with
      | none => .panics
      | some first =>
        if first = denom ∧ strings.TrimSpace denom ≠ "" then
          -- denom source is from the current chain
          .returns none
        else
          -- denom source is ethereum
          match denomSplit[1]? with
          | none => .panics
          | some second =>
            match ValidateEthAddress second with
            | some err => .returns (some (.Errorf "invalid contract address: " err))
            | none => .returns none

/-- The first `case` of the `switch` of `ValidateGravityDenom` (lines 37-39), on the
denomination and its split: the malformed case. -/
def malformedCase (denom : String) (denomSplit : List String) : Bool :=
  decide (strings.TrimSpace denom = ""
    ∨ (denomSplit.length = 1 ∧ denomSplit[0]? = some GravityDenomPrefix)
    ∨ (denomSplit.length = 2 ∧ (denomSplit[0]? ≠ some GravityDenomPrefix
        ∨ (denomSplit[1]?).map strings.TrimSpace = some "")))

/-- The second `case` of the `switch` of `ValidateGravityDenom` (line 42): the native case. -/
def nativeCase (denom : String) (denomSplit : List String) : Bool :=
  decide (denomSplit[0]? = some denom ∧ strings.TrimSpace denom ≠ "")

/-- The run returned a non-nil error that is, or wraps, `target` (Go `errors.Is`). -/
def failsWith (r : Run (Option Error)) (target : Error) : Bool :=
  match r with
  | .returns (some e) => e.Is target
  | _ => false

/-- The function `GravityDenom`: `fmt.Sprintf("%s%s%s", prefix, separator, address)`. -/
def GravityDenom (contractAddress : String) : String :=
  GravityDenomPrefix ++ GravityDenomSeparator ++ contractAddress

/-- The function `IsEthereumERC20Token`. -/
def IsEthereumERC20Token (denom : String) : Bool :=
  let pre := GravityDenomPrefix ++ GravityDenomSeparator
  strings.HasPrefix denom pre

/-- The function `IsCosmosCoin`. -/
def IsCosmosCoin (denom : String) : Bool := !IsEthereumERC20Token denom

/-- The function `GravityDenomToERC20Contract`. -/
def GravityDenomToERC20Contract (denom : String) : String :=
  let fullPrefix := GravityDenomPrefix ++ GravityDenomSeparator
  strings.TrimPrefix denom fullPrefix

/-- The record `ERC20ToDenom`, as far as `Validate` reads it. -/
structure ERC20ToDenom where
  Erc20Address : String
  Denom : String
  deriving DecidableEq

/-- The method `ERC20ToDenom.Validate`, with the two validators it calls as arguments. -/
def ERC20ToDenom.Validate (ValidateDenom ValidateEthAddress : String → Option Error)
    (e : ERC20ToDenom) : Option Error :=
  match ValidateDenom e.Denom with
  | some err => some (.Errorf "invalid cosmos denomination: " err)
  | none =>
    match ValidateEthAddress e.Erc20Address with
    | some err => some (.Errorf "invalid erc20 address: " err)
    | none => none

/-! ## Lemmas on the library functions -/

theorem index_singleton_none {c : Char} :
    ∀ {s : List Char}, strings.Index s [c] = none ↔ c ∉ s
  | [] => by simp [strings.Index, List.isPrefixOf]
  | x :: xs => by
    have ih := index_singleton_none (c := c) (s := xs)
    by_cases h : c = x
    · simp [strings.Index, List.isPrefixOf, h]
    · simp [strings.Index, List.isPrefixOf, h, ih]

theorem index_singleton_append {c : Char} (t : List Char) :
    ∀ (p : List Char), c ∉ p → strings.Index (p ++ c :: t) [c] = some p.length
  | [], _ => by simp [strings.Index, List.isPrefixOf]
  | x :: xs, h => by
    have hx : ¬ c = x := fun e => h (by simp [e])
    have hxs : c ∉ xs := fun e => h (by simp [e])
    simp [strings.Index, List.isPrefixOf, hx, index_singleton_append t xs hxs]

theorem index_singleton_some {c : Char} :
    ∀ {s : List Char} {m : Nat}, strings.Index s [c] = some m →
      s = s.take m ++ c :: s.drop (m + 1) ∧ c ∉ s.take m ∧ m < s.length
  | [], m => by simp [strings.Index, List.isPrefixOf]
  | x :: xs, m => by
    by_cases h : c = x
    · simp [strings.Index, List.isPrefixOf, h]
      intro hm
      subst hm
      simp
    · simp only [strings.Index, List.isPrefixOf, beq_iff_eq, h, Bool.and_true, Bool.false_eq_true,
        if_false, Option.map_eq_some']
      rintro ⟨k, hk, rfl⟩
      obtain ⟨h1, h2, h3⟩ := index_singleton_some hk
      refine ⟨?_, ?_, ?_⟩
      · simp only [List.take_succ_cons, List.drop_succ_cons, List.cons_append]
        rw [← h1]
      · simp [h, h2]
      · simp [h3]

/-- `SplitN(s, "/", 2)` cuts at the first separator, when there is one. -/
theorem splitN_separator (d : String) :
    strings.SplitN d GravityDenomSeparator 2 =
      match strings.Index d.data ['/'] with
      | none => [d]
      | some m => [⟨d.data.take m⟩, ⟨d.data.drop (m + 1)⟩] := by
  rcases d with ⟨cs⟩
  cases cs with
  | nil => simp [strings.SplitN, len, strings.splitLoop, strings.Index, List.isPrefixOf,
      GravityDenomSeparator]
  | cons c cs =>
    have hpos := Char.utf8Size_pos c
    have hlen : ¬ (2 > len ⟨c :: cs⟩ + 1) := by
      simp only [len, String.utf8ByteSize_mk, String.utf8Len_cons]
      omega
    simp only [strings.SplitN, hlen, if_false, GravityDenomSeparator]
    simp only [show (2 : Nat) ≠ 0 by decide, if_false, show 2 - 1 = 1 from rfl,
      strings.splitLoop]
    cases strings.Index (c :: cs) ['/'] <;> simp [strings.splitLoop]

theorem trimSpace_eq_empty_iff (s : String) :
    strings.TrimSpace s = "" ↔ ∀ c ∈ s.data, unicode.IsSpace c = true := by
  have key : ∀ l : List Char,
      (l.dropWhile unicode.IsSpace).reverse.dropWhile unicode.IsSpace = [] ↔
        ∀ c ∈ l, unicode.IsSpace c = true := by
    intro l
    rw [List.dropWhile_eq_nil_iff]
    constructor
    · intro h
      have h2 : l.dropWhile unicode.IsSpace = [] := by
        cases hd : l.dropWhile unicode.IsSpace with
        | nil => rfl
        | cons x xs =>
          have hx : unicode.IsSpace x = true := h x (by simp [hd])
          have hnx := List.head_dropWhile_not unicode.IsSpace l (by simp [hd])
          simp [hd, hx] at hnx
      exact List.dropWhile_eq_nil_iff.mp h2
    · intro h
      rw [List.dropWhile_eq_nil_iff.mpr h]
      simp
  constructor
  · intro h
    have h2 := congrArg String.data h
    simp only [strings.TrimSpace, List.reverse_eq_nil_iff] at h2
    exact (key _).mp (by simpa using h2)
  · intro h
    apply String.ext
    simp only [strings.TrimSpace]
    rw [(key _).mpr h]
    rfl

theorem trimSpace_ne_empty {s : String} {c : Char} (hc : c ∈ s.data)
    (hs : unicode.IsSpace c = false) : strings.TrimSpace s ≠ "" := by
  intro h
  have := (trimSpace_eq_empty_iff s).mp h c hc
  simp [hs] at this

/-! ## The decision table of `ValidateGravityDenom` -/

theorem separator_not_space : unicode.IsSpace '/' = false := by decide

/-- Step 1: a denomination rejected by the base validator gets that validator's error. -/
theorem validate_of_base_rejects {vd ve : String → Option Error} {d : String} {e : Error}
    (h : vd d = some e) : ValidateGravityDenom vd ve d = .returns (some e) := by
  simp [ValidateGravityDenom, h]

/-- Without a separator: malformed when blank or the bare prefix, native otherwise. -/
theorem validate_of_no_separator {vd ve : String → Option Error} {d : String}
    (h : vd d = none) (hs : strings.Index d.data ['/'] = none) :
    ValidateGravityDenom vd ve d =
      if strings.TrimSpace d = "" ∨ d = GravityDenomPrefix then .returns (some malformedDenom)
      else .returns none := by
  simp only [ValidateGravityDenom, h, splitN_separator, hs]
  by_cases hb : strings.TrimSpace d = ""
  · simp [hb]
  · by_cases hp : d = GravityDenomPrefix
    · simp [hp]
    · simp [hb, hp]

/-- With a separator: malformed unless the first part is the prefix and the rest is not
blank; otherwise the verdict of the address validator on the rest. -/
theorem validate_of_separator {vd ve : String → Option Error} {d : String}
    (h : vd d = none) (p t : List Char) (hd : d.data = p ++ '/' :: t) (hp : '/' ∉ p) :
    ValidateGravityDenom vd ve d =
      if (⟨p⟩ : String) ≠ GravityDenomPrefix ∨ strings.TrimSpace ⟨t⟩ = "" then
        .returns (some malformedDenom)
      else
        match ve ⟨t⟩ with
        | some err => .returns (some (.Errorf "invalid contract address: " err))
        | none => .returns none := by
  have hidx : strings.Index d.data ['/'] = some p.length := by
    rw [hd]; exact index_singleton_append t p hp
  have htake : d.data.take p.length = p := by simp [hd]
  have hdrop : d.data.drop (p.length + 1) = t := by simp [hd]
  have hblank : strings.TrimSpace d ≠ "" :=
    trimSpace_ne_empty (c := '/') (by simp [hd]) separator_not_space
  have hne : (⟨p⟩ : String) ≠ d := by
    intro e
    have := congrArg (fun s => s.data.length) e
    simp [hd] at this
  simp only [ValidateGravityDenom, h, splitN_separator, hidx, htake, hdrop]
  by_cases h1 : (⟨p⟩ : String) = GravityDenomPrefix
  · by_cases h2 : strings.TrimSpace ⟨t⟩ = ""
    · simp [h1, h2]
    · have hne2 : ¬ GravityDenomPrefix = d := fun e => hne (h1.trans e)
      simp [h1, h2, hblank, hne2]
  · simp [h1]

/-- The parts of a denomination built by `GravityDenom`. -/
theorem gravityDenom_data (a : String) :
    (GravityDenom a).data = "gravity".data ++ '/' :: a.data := by
  simp [GravityDenom, GravityDenomPrefix, GravityDenomSeparator, ModuleName]

theorem separator_not_in_prefix : '/' ∉ "gravity".data := by decide

theorem contains_separator_eq_false {d : String} :
    strings.Contains d GravityDenomSeparator = false ↔ strings.Index d.data ['/'] = none := by
  simp [strings.Contains, GravityDenomSeparator]

theorem malformedDenom_is : malformedDenom.Is ErrInvalidGravityDenom = true := by decide

theorem hexDigit_denomChar {c : Char} (h : isHexDigit c = true) : isDenomChar c = true := by
  have key : ∀ x ∈ "0123456789abcdefABCDEF".data, isDenomChar x = true := by decide
  exact key c (by simpa [isHexDigit] using h)

theorem letter_not_space {c : Char} (h : isLetter c = true) : unicode.IsSpace c = false := by
  have key : ∀ x ∈ "abcdefghijklmnopqrstuvwxyzABCDEFGHIJKLMNOPQRSTUVWXYZ".data,
      unicode.IsSpace x = false := by decide
  exact key c (by simpa [isLetter] using h)

/-- The modelled base validator accepts no blank denomination. -/
theorem not_blank_of_base_valid {d : String} (h : sdk.ValidateDenom d = none) :
    strings.TrimSpace d ≠ "" := by
  rcases d with ⟨cs⟩
  cases cs with
  | nil => simp [sdk.ValidateDenom] at h
  | cons c cs =>
    simp only [sdk.ValidateDenom] at h
    split at h
    · rename_i hc
      exact trimSpace_ne_empty (c := c) (by simp) (letter_not_space hc.1)
    · simp at h

/-! ## Construction and extraction -/

/-- C1: for every string `a`, also one that contains the separator or starts with
prefix + separator itself, `GravityDenomToERC20Contract (GravityDenom a) = a`: extraction
removes only the leading prefix + separator that construction added. -/
theorem gravityDenomToERC20Contract_gravityDenom (a : String) :
    GravityDenomToERC20Contract (GravityDenom a) = a := by
  apply String.ext
  simp [GravityDenomToERC20Contract, GravityDenom, strings.TrimPrefix, strings.HasPrefix,
    GravityDenomPrefix, GravityDenomSeparator, ModuleName]

/-! ## Validation -/

/-- C2: for every foreign address `a` accepted by the foreign-address validator (`0x` and
40 hexadecimal digits), `ValidateGravityDenom (GravityDenom a)` returns no error. -/
theorem validateGravityDenom_gravityDenom (a : String) (ha : ValidateEthAddress a = none) :
    ValidateGravityDenom sdk.ValidateDenom ValidateEthAddress (GravityDenom a)
      = .returns none := by
  have hshape : a.data.length = 42 ∧ strings.HasPrefix a "0x" = true
      ∧ (a.data.drop 2).all isHexDigit = true := by
    simp only [ValidateEthAddress] at ha
    split at ha
    · assumption
    · simp at ha
  obtain ⟨hlen, hpre, hhex⟩ := hshape
  rcases a with ⟨cs⟩
  match cs, hlen, hpre, hhex with
  | c0 :: c1 :: rest, hlen, hpre, hhex =>
    simp only [strings.HasPrefix, List.isPrefixOf, Bool.and_true, Bool.and_eq_true,
      beq_iff_eq] at hpre
    obtain ⟨h0, h1⟩ := hpre
    subst h0 h1
    simp only [List.drop_succ_cons, List.drop_zero, List.all_eq_true] at hhex
    simp only [List.length_cons] at hlen
    have hbase : sdk.ValidateDenom (GravityDenom ⟨'0' :: 'x' :: rest⟩) = none := by
      have hall : ∀ c ∈ rest, isDenomChar c = true := fun c hc => hexDigit_denomChar (hhex c hc)
      have hd : (GravityDenom ⟨'0' :: 'x' :: rest⟩).data
          = 'g' :: ('r' :: 'a' :: 'v' :: 'i' :: 't' :: 'y' :: '/' :: '0' :: 'x' :: rest) :=
        gravityDenom_data _
      simp only [sdk.ValidateDenom, hd]
      have hl : isLetter 'g' = true := by decide
      have h9 : ∀ c ∈ ['r', 'a', 'v', 'i', 't', 'y', '/', '0', 'x'], isDenomChar c = true := by
        decide
      have hcs : ('r' :: 'a' :: 'v' :: 'i' :: 't' :: 'y' :: '/' :: '0' :: 'x' :: rest).all
          isDenomChar = true := by
        rw [List.all_eq_true]
        intro c hc
        have hc2 : c ∈ ['r', 'a', 'v', 'i', 't', 'y', '/', '0', 'x'] ++ rest := by simpa using hc
        rcases List.mem_append.mp hc2 with h | h
        · exact h9 c h
        · exact hall c h
      rw [if_pos]
      refine ⟨hl, ?_, ?_, hcs⟩ <;> simp only [List.length_cons] <;> omega
    have hnb : strings.TrimSpace ⟨'0' :: 'x' :: rest⟩ ≠ "" :=
      trimSpace_ne_empty (c := '0') (by simp) (by decide)
    rw [validate_of_separator hbase "gravity".data ('0' :: 'x' :: rest) (gravityDenom_data _)
      separator_not_in_prefix]
    have hp : (⟨"gravity".data⟩ : String) = GravityDenomPrefix := rfl
    simp [hp, hnb, ha]

/-- C3: `ValidateGravityDenom d` returns no error exactly when the base validator accepts
`d` and either `d` contains no separator, is not blank and is not the bare prefix (native
path), or `d` is prefix + separator + `s` for an `s` that is not blank and that the
address validator accepts (bridged path). -/
theorem validateGravityDenom_eq_nil_iff (vd ve : String → Option Error) (d : String) :
    ValidateGravityDenom vd ve d = .returns none ↔
      vd d = none ∧
        ((strings.Contains d GravityDenomSeparator = false ∧ strings.TrimSpace d ≠ ""
            ∧ d ≠ GravityDenomPrefix)
          ∨ ∃ s : String, d = GravityDenomPrefix ++ GravityDenomSeparator ++ s
              ∧ strings.TrimSpace s ≠ "" ∧ ve s = none) := by
  have hp : (⟨"gravity".data⟩ : String) = GravityDenomPrefix := rfl
  constructor
  · intro h
    cases hvd : vd d with
    | some e => simp [@validate_of_base_rejects vd ve d e hvd] at h
    | none =>
      refine ⟨rfl, ?_⟩
      cases hidx : strings.Index d.data ['/'] with
      | none =>
        left
        rw [validate_of_no_separator hvd hidx] at h
        refine ⟨contains_separator_eq_false.mpr hidx, ?_, ?_⟩
        · intro hb; simp [hb] at h
        · intro hb; simp [hb] at h
      | some m =>
        right
        obtain ⟨hsplit, hnot, _⟩ := index_singleton_some hidx
        rw [validate_of_separator hvd _ _ hsplit hnot] at h
        by_cases hc : (⟨d.data.take m⟩ : String) ≠ GravityDenomPrefix
            ∨ strings.TrimSpace ⟨d.data.drop (m + 1)⟩ = ""
        · simp [hc] at h
        · rw [if_neg hc] at h
          simp only [not_or, not_not] at hc
          refine ⟨⟨d.data.drop (m + 1)⟩, ?_, hc.2, ?_⟩
          · apply String.ext
            have h1 : d.data.take m = "gravity".data := congrArg String.data hc.1
            calc d.data = d.data.take m ++ '/' :: d.data.drop (m + 1) := hsplit
              _ = "gravity".data ++ '/' :: d.data.drop (m + 1) := by rw [h1]
              _ = _ := (gravityDenom_data ⟨d.data.drop (m + 1)⟩).symm
          · cases hve : ve ⟨d.data.drop (m + 1)⟩ with
            | none => rfl
            | some e => simp [hve] at h
  · rintro ⟨hvd, ⟨hsep, hnb, hne⟩ | ⟨s, rfl, hnb, hve⟩⟩
    · rw [validate_of_no_separator hvd (contains_separator_eq_false.mp hsep)]
      simp [hnb, hne]
    · rw [validate_of_separator hvd "gravity".data s.data (gravityDenom_data s)
        separator_not_in_prefix]
      simp [hp, hnb, hve]

/-- C4: a denomination that the base validator rejects makes `ValidateGravityDenom` return
exactly the base validator's error, unwrapped, whatever its prefix and separators. -/
theorem validateGravityDenom_of_base_error (vd ve : String → Option Error) (d : String)
    (e : Error) (h : vd d = some e) : ValidateGravityDenom vd ve d = .returns (some e) :=
  validate_of_base_rejects h

theorem validateGravityDenom_of_base_error_witness :
    sdk.ValidateDenom "gravity/ " = some (.text "invalid denom: gravity/ ")
      ∧ ValidateGravityDenom sdk.ValidateDenom ValidateEthAddress "gravity/ "
          = .returns (some (.text "invalid denom: gravity/ ")) :=
  ⟨by decide, validateGravityDenom_of_base_error _ _ "gravity/ " _ (by decide)⟩

theorem validateGravityDenom_gravityDenom_witness :
    ValidateEthAddress "0xa478c2975ab1ea89e8196811f51a7b7ade33eb11" = none
      ∧ ValidateGravityDenom sdk.ValidateDenom ValidateEthAddress
          (GravityDenom "0xa478c2975ab1ea89e8196811f51a7b7ade33eb11") = .returns none :=
  ⟨by decide, validateGravityDenom_gravityDenom _ (by decide)⟩

/-- C5, as stated, fails: the base validator rejects the empty identifier, so
`ValidateGravityDenom ""` returns the base validator's error, which neither is nor wraps
`ErrInvalidGravityDenom`. -/
theorem validateGravityDenom_empty_not_malformed :
    ValidateGravityDenom sdk.ValidateDenom ValidateEthAddress ""
        = .returns (some (.text "invalid denom: "))
      ∧ failsWith (ValidateGravityDenom sdk.ValidateDenom ValidateEthAddress "")
          ErrInvalidGravityDenom = false := by
  decide

/-- C5, amended: `ValidateGravityDenom ""` always fails; it returns the base validator's own
error for the empty identifier when there is one, as for the base validator that rejects
the empty denomination, and the `ErrInvalidGravityDenom` error only under a base validator
that accepts the empty identifier. -/
theorem validateGravityDenom_empty (vd ve : String → Option Error) :
    ValidateGravityDenom vd ve ""
        = .returns (some (match vd "" with
            | some err => err
            | none => malformedDenom))
      ∧ ValidateGravityDenom sdk.ValidateDenom ve "" = .returns (sdk.ValidateDenom "")
      ∧ sdk.ValidateDenom "" ≠ none := by
  refine ⟨?_, ?_, by decide⟩
  · cases hvd : vd "" with
    | some e => exact validate_of_base_rejects hvd
    | none =>
      rw [validate_of_no_separator hvd (by decide)]
      have hb : strings.TrimSpace "" = "" := by decide
      simp [hb]
  · exact validate_of_base_rejects (by decide)

/-- C6: the bare prefix passes the base validator and `ValidateGravityDenom` rejects it with
the `ErrInvalidGravityDenom` error, whatever the address validator: it is not a native
identifier. -/
theorem validateGravityDenom_bare_prefix (ve : String → Option Error) :
    sdk.ValidateDenom GravityDenomPrefix = none
      ∧ ValidateGravityDenom sdk.ValidateDenom ve GravityDenomPrefix
          = .returns (some malformedDenom)
      ∧ failsWith (ValidateGravityDenom sdk.ValidateDenom ve GravityDenomPrefix)
          ErrInvalidGravityDenom = true := by
  have h : ValidateGravityDenom sdk.ValidateDenom ve GravityDenomPrefix
      = .returns (some malformedDenom) := by
    rw [validate_of_no_separator (by decide) (by decide)]
    simp
  refine ⟨by decide, h, ?_⟩
  rw [h]
  decide

/-- C7: prefix + separator, the bridged form with an empty address, is rejected with the
`ErrInvalidGravityDenom` error, whatever the address validator says. -/
theorem validateGravityDenom_empty_address (ve : String → Option Error) :
    ValidateGravityDenom sdk.ValidateDenom ve (GravityDenomPrefix ++ GravityDenomSeparator)
        = .returns (some malformedDenom)
      ∧ failsWith
          (ValidateGravityDenom sdk.ValidateDenom ve (GravityDenomPrefix ++ GravityDenomSeparator))
          ErrInvalidGravityDenom = true := by
  have h : ValidateGravityDenom sdk.ValidateDenom ve (GravityDenomPrefix ++ GravityDenomSeparator)
      = .returns (some malformedDenom) := by
    rw [validate_of_separator (by decide) "gravity".data [] (by decide) separator_not_in_prefix]
    have hb : strings.TrimSpace ⟨[]⟩ = "" := by decide
    simp [hb]
  refine ⟨h, ?_⟩
  rw [h]
  decide

/-- C8: when `s` is not blank, the address validator rejects `s` with `e`, and the base
validator accepts prefix + separator + `s`, `ValidateGravityDenom` fails with the
invalid-contract-address error that wraps `e`. -/
theorem validateGravityDenom_invalid_address (vd ve : String → Option Error) (s : String)
    (e : Error) (hblank : strings.TrimSpace s ≠ "") (hve : ve s = some e)
    (hvd : vd (GravityDenomPrefix ++ GravityDenomSeparator ++ s) = none) :
    ValidateGravityDenom vd ve (GravityDenomPrefix ++ GravityDenomSeparator ++ s)
      = .returns (some (.Errorf "invalid contract address: " e)) := by
  have hp : (⟨"gravity".data⟩ : String) = GravityDenomPrefix := rfl
  rw [validate_of_separator hvd "gravity".data s.data (gravityDenom_data s)
    separator_not_in_prefix]
  simp [hp, hblank, hve]

theorem validateGravityDenom_invalid_address_witness :
    ValidateGravityDenom sdk.ValidateDenom ValidateEthAddress
        (GravityDenomPrefix ++ GravityDenomSeparator ++ "0xabc")
      = .returns (some (.Errorf "invalid contract address: " (.text "invalid address: 0xabc"))) :=
  validateGravityDenom_invalid_address sdk.ValidateDenom ValidateEthAddress "0xabc"
    (.text "invalid address: 0xabc") (by decide) (by decide) (by decide)

/-- C9: a denomination that passes the base validator, contains no separator and is not the
bare prefix is accepted, whatever the address validator: it is never consulted. -/
theorem validateGravityDenom_native (ve : String → Option Error) (d : String)
    (hvd : sdk.ValidateDenom d = none)
    (hsep : strings.Contains d GravityDenomSeparator = false)
    (hne : d ≠ GravityDenomPrefix) :
    ValidateGravityDenom sdk.ValidateDenom ve d = .returns none := by
  rw [validate_of_no_separator hvd (contains_separator_eq_false.mp hsep)]
  simp [not_blank_of_base_valid hvd, hne]

theorem validateGravityDenom_native_witness :
    ValidateGravityDenom sdk.ValidateDenom (fun _ => some (.text "never consulted")) "uatom"
      = .returns none :=
  validateGravityDenom_native _ "uatom" (by decide) (by decide) (by decide)

/-- C10, as stated, fails: `ibc/abc` and the bare prefix satisfy the base grammar and do not
start with prefix + separator, and both are rejected with the `ErrInvalidGravityDenom`
error. -/
theorem validateGravityDenom_rejects_unprefixed :
    (sdk.ValidateDenom "ibc/abc" = none
      ∧ strings.HasPrefix "ibc/abc" (GravityDenomPrefix ++ GravityDenomSeparator) = false
      ∧ ValidateGravityDenom sdk.ValidateDenom ValidateEthAddress "ibc/abc"
          = .returns (some malformedDenom))
    ∧ (sdk.ValidateDenom "gravity" = none
      ∧ strings.HasPrefix "gravity" (GravityDenomPrefix ++ GravityDenomSeparator) = false
      ∧ ValidateGravityDenom sdk.ValidateDenom ValidateEthAddress "gravity"
          = .returns (some malformedDenom)) := by
  decide

/-- C10, amended: a string that satisfies the base grammar and contains no separator is
accepted by `ValidateGravityDenom` exactly when it is not the bare prefix. -/
theorem validateGravityDenom_separator_free (ve : String → Option Error) (d : String)
    (hvd : sdk.ValidateDenom d = none)
    (hsep : strings.Contains d GravityDenomSeparator = false) :
    ValidateGravityDenom sdk.ValidateDenom ve d = .returns none ↔ d ≠ GravityDenomPrefix := by
  rw [validate_of_no_separator hvd (contains_separator_eq_false.mp hsep)]
  by_cases hne : d = GravityDenomPrefix
  · simp [hne]
  · simp [not_blank_of_base_valid hvd, hne]

theorem validateGravityDenom_separator_free_witness :
    (ValidateGravityDenom sdk.ValidateDenom ValidateEthAddress "stake" = .returns none
      ↔ "stake" ≠ GravityDenomPrefix) :=
  validateGravityDenom_separator_free ValidateEthAddress "stake" (by decide) (by decide)

/-! ## Further lemmas -/

/-- The body of `ValidateGravityDenom` in terms of its two `switch` cases: the address
validator is reached exactly when the base check passes and neither case fires. -/
theorem validateGravityDenom_unfold (vd ve : String → Option Error) (d : String) :
    ValidateGravityDenom vd ve d =
      match vd d with
      | some err => .returns (some err)
      | none =>
        if malformedCase d (strings.SplitN d GravityDenomSeparator 2) = true then
          .returns (some malformedDenom)
        else if nativeCase d (strings.SplitN d GravityDenomSeparator 2) = true then
          .returns none
        else
          match (strings.SplitN d GravityDenomSeparator 2)[1]? with
          | none => .panics
          | some second =>
            match ve second with
            | some err => .returns (some (.Errorf "invalid contract address: " err))
            | none => .returns none := by
  cases hvd : vd d with
  | some e => simp [ValidateGravityDenom, hvd]
  | none =>
    simp only [ValidateGravityDenom, hvd, malformedCase, nativeCase, decide_eq_true_eq]
    split
    · rfl
    · cases h0 : (strings.SplitN d GravityDenomSeparator 2)[0]? with
      | none =>
        have hlen : (strings.SplitN d GravityDenomSeparator 2) = [] := by
          simpa using h0
        have : strings.SplitN d GravityDenomSeparator 2 ≠ [] := by
          rw [splitN_separator]
          cases strings.Index d.data ['/'] <;> simp
        exact absurd hlen this
      | some first =>
        simp only [Option.some.injEq]

/-- A denomination that `ValidateGravityDenom` accepts is native (no separator, not blank,
not the bare prefix) or bridged (prefix, separator, an accepted address that is not
blank). -/
theorem validate_success_shape {vd ve : String → Option Error} {d : String}
    (h : ValidateGravityDenom vd ve d = .returns none) :
    (strings.Index d.data ['/'] = none ∧ strings.TrimSpace d ≠ "" ∧ d ≠ GravityDenomPrefix)
      ∨ ∃ s : String, d = GravityDenom s ∧ strings.TrimSpace s ≠ "" ∧ ve s = none := by
  cases hvd : vd d with
  | some e => simp [@validate_of_base_rejects vd ve d e hvd] at h
  | none =>
    cases hidx : strings.Index d.data ['/'] with
    | none =>
      left
      rw [validate_of_no_separator hvd hidx] at h
      refine ⟨rfl, ?_, ?_⟩
      · intro hb; simp [hb] at h
      · intro hb; simp [hb] at h
    | some m =>
      right
      obtain ⟨hsplit, hnot, _⟩ := index_singleton_some hidx
      rw [validate_of_separator hvd _ _ hsplit hnot] at h
      by_cases hc : (⟨d.data.take m⟩ : String) ≠ GravityDenomPrefix
          ∨ strings.TrimSpace ⟨d.data.drop (m + 1)⟩ = ""
      · simp [hc] at h
      · rw [if_neg hc] at h
        simp only [not_or, not_not] at hc
        refine ⟨⟨d.data.drop (m + 1)⟩, ?_, hc.2, ?_⟩
        · apply String.ext
          have h1 : d.data.take m = "gravity".data := congrArg String.data hc.1
          rw [gravityDenom_data, ← h1]
          exact hsplit
        · cases hve : ve ⟨d.data.drop (m + 1)⟩ with
          | none => rfl
          | some e => simp [hve] at h

theorem isEthereumERC20Token_gravityDenom (a : String) :
    IsEthereumERC20Token (GravityDenom a) = true := by
  simp [IsEthereumERC20Token, GravityDenom, strings.HasPrefix, GravityDenomPrefix,
    GravityDenomSeparator, ModuleName]

/-- A denomination with the bridged prefix is `GravityDenom` of what follows it. -/
theorem eq_gravityDenom_of_isEthereumERC20Token {d : String}
    (h : IsEthereumERC20Token d = true) :
    d = GravityDenom ⟨d.data.drop 8⟩ ∧ GravityDenomToERC20Contract d = ⟨d.data.drop 8⟩ := by
  have hpre : "gravity/".data <+: d.data := by
    simpa [IsEthereumERC20Token, strings.HasPrefix, GravityDenomPrefix, GravityDenomSeparator,
      ModuleName] using h
  obtain ⟨t, ht⟩ := hpre
  have hh : strings.HasPrefix d (GravityDenomPrefix ++ GravityDenomSeparator) = true := h
  constructor
  · apply String.ext
    rw [gravityDenom_data, ← ht]
    simp
  · simp only [GravityDenomToERC20Contract, strings.TrimPrefix, hh, if_true]
    rfl

theorem contract_of_not_isEthereumERC20Token {d : String}
    (h : IsEthereumERC20Token d = false) : GravityDenomToERC20Contract d = d := by
  have hh : strings.HasPrefix d (GravityDenomPrefix ++ GravityDenomSeparator) = false := h
  simp [GravityDenomToERC20Contract, strings.TrimPrefix, hh]

theorem len_append (s t : String) : len (s ++ t) = len s + len t := by
  rcases s with ⟨a⟩
  rcases t with ⟨b⟩
  show String.utf8ByteSize ⟨a ++ b⟩ = _
  simp [len]

theorem len_gravityDenom (a : String) : len (GravityDenom a) = 8 + len a := by
  have h8 : len (GravityDenomPrefix ++ GravityDenomSeparator) = 8 := by decide
  simp only [GravityDenom, len_append] at *
  omega

theorem contract_of_gravityDenom (a : String) :
    GravityDenomToERC20Contract (GravityDenom a) = a := by
  have h := eq_gravityDenom_of_isEthereumERC20Token (isEthereumERC20Token_gravityDenom a)
  rw [h.2]
  apply String.ext
  simp [gravityDenom_data]

theorem index_of_isEthereumERC20Token {d : String} (h : IsEthereumERC20Token d = true) :
    strings.Index d.data ['/'] = some 7 := by
  rw [(eq_gravityDenom_of_isEthereumERC20Token h).1, gravityDenom_data]
  exact index_singleton_append _ _ separator_not_in_prefix

theorem utf8Len_of_hex :
    ∀ l : List Char, (∀ c ∈ l, isHexDigit c = true) → String.utf8Len l = l.length
  | [], _ => rfl
  | c :: cs, h => by
    have key : ∀ x ∈ "0123456789abcdefABCDEF".data, x.utf8Size = 1 := by decide
    have hc : c.utf8Size = 1 := key c (by simpa [isHexDigit] using h c (by simp))
    have ih := utf8Len_of_hex cs (fun x hx => h x (by simp [hx]))
    simp [ih, hc]

/-- An address accepted by the modelled address validator has 42 bytes. -/
theorem len_of_valid_address {a : String} (ha : ValidateEthAddress a = none) :
    len a = ETHContractAddressLen := by
  have hshape : a.data.length = 42 ∧ strings.HasPrefix a "0x" = true
      ∧ (a.data.drop 2).all isHexDigit = true := by
    simp only [ValidateEthAddress] at ha
    split at ha
    · assumption
    · simp at ha
  obtain ⟨hlen, hpre, hhex⟩ := hshape
  rcases a with ⟨cs⟩
  match cs, hlen, hpre, hhex with
  | c0 :: c1 :: rest, hlen, hpre, hhex =>
    simp only [strings.HasPrefix, List.isPrefixOf, Bool.and_true, Bool.and_eq_true,
      beq_iff_eq] at hpre
    obtain ⟨h0, h1⟩ := hpre
    subst h0 h1
    simp only [List.drop_succ_cons, List.drop_zero, List.all_eq_true] at hhex
    simp only [List.length_cons] at hlen
    have hrest := utf8Len_of_hex rest hhex
    have h0 : Char.utf8Size '0' = 1 := by decide
    have hx : Char.utf8Size 'x' = 1 := by decide
    simp only [len, String.utf8ByteSize_mk, String.utf8Len_cons, hrest, h0, hx,
      ETHContractAddressLen]
    omega

/-! ## The mapping record -/

/-- C11: `ERC20ToDenom.Validate` returns no error exactly when the base validator accepts the
denomination and the address validator accepts the address: two independent checks, no
condition relates the two fields. -/
theorem erc20ToDenom_validate_eq_nil_iff (vd ve : String → Option Error) (e : ERC20ToDenom) :
    e.Validate vd ve = none ↔ vd e.Denom = none ∧ ve e.Erc20Address = none := by
  cases hd : vd e.Denom <;> cases ha : ve e.Erc20Address <;>
    simp [ERC20ToDenom.Validate, hd, ha]

/-- C12: `ERC20ToDenom.Validate` reports the denomination first. When the base validator
rejects the denomination with `err`, the result is the invalid-denomination error wrapping
`err`, whatever the address is; when it accepts the denomination and the address validator
rejects the address with `err`, the result is the invalid-address error wrapping `err`. -/
theorem erc20ToDenom_validate_error (vd ve : String → Option Error) (e : ERC20ToDenom) :
    (∀ err, vd e.Denom = some err →
        e.Validate vd ve = some (.Errorf "invalid cosmos denomination: " err))
      ∧ (vd e.Denom = none → ∀ err, ve e.Erc20Address = some err →
        e.Validate vd ve = some (.Errorf "invalid erc20 address: " err)) := by
  constructor
  · intro err hd
    simp [ERC20ToDenom.Validate, hd]
  · intro hd err ha
    simp [ERC20ToDenom.Validate, hd, ha]

theorem erc20ToDenom_validate_error_witness :
    ERC20ToDenom.Validate sdk.ValidateDenom ValidateEthAddress ⟨"abc", ""⟩
        = some (.Errorf "invalid cosmos denomination: " (.text "invalid denom: "))
      ∧ ERC20ToDenom.Validate sdk.ValidateDenom ValidateEthAddress ⟨"abc", "uatom"⟩
        = some (.Errorf "invalid erc20 address: " (.text "invalid address: abc")) :=
  ⟨(erc20ToDenom_validate_error sdk.ValidateDenom ValidateEthAddress ⟨"abc", ""⟩).1 _
      (by decide),
    (erc20ToDenom_validate_error sdk.ValidateDenom ValidateEthAddress ⟨"abc", "uatom"⟩).2
      (by decide) _ (by decide)⟩

/-! ## Classification and extraction -/

/-- C13: a denomination that does not start with prefix + separator is returned unchanged
by `GravityDenomToERC20Contract`; no error is signalled (the function returns a string). -/
theorem gravityDenomToERC20Contract_of_not_prefixed (d : String)
    (h : strings.HasPrefix d (GravityDenomPrefix ++ GravityDenomSeparator) = false) :
    GravityDenomToERC20Contract d = d :=
  contract_of_not_isEthereumERC20Token h

theorem gravityDenomToERC20Contract_of_not_prefixed_witness :
    GravityDenomToERC20Contract GravityDenomPrefix = GravityDenomPrefix
      ∧ GravityDenomToERC20Contract "" = "" :=
  ⟨gravityDenomToERC20Contract_of_not_prefixed GravityDenomPrefix (by decide),
    gravityDenomToERC20Contract_of_not_prefixed "" (by decide)⟩

/-- C14: for every string `a`, a valid address or not, `GravityDenom a` is classified as an
Ethereum ERC20 token and not as a Cosmos coin. -/
theorem classify_gravityDenom (a : String) :
    IsEthereumERC20Token (GravityDenom a) = true ∧ IsCosmosCoin (GravityDenom a) = false := by
  simp [IsCosmosCoin, isEthereumERC20Token_gravityDenom]

/-- C15: for every string `x`, empty or not, `IsCosmosCoin x` differs from
`IsEthereumERC20Token x`: it is its negation, so exactly one of the two is true. -/
theorem isCosmosCoin_ne_isEthereumERC20Token (x : String) :
    IsCosmosCoin x ≠ IsEthereumERC20Token x
      ∧ IsCosmosCoin x = !IsEthereumERC20Token x := by
  cases h : IsEthereumERC20Token x <;> simp [IsCosmosCoin, h]

/-- C16: on a denomination that `ValidateGravityDenom` accepts, the classifier agrees with
the validator: if it is an Ethereum ERC20 token then the address validator accepts its
extracted contract address, and if it is a Cosmos coin then it contains no separator and is
not the bare prefix. -/
theorem classification_of_valid (vd ve : String → Option Error) (d : String)
    (h : ValidateGravityDenom vd ve d = .returns none) :
    (IsEthereumERC20Token d = true → ve (GravityDenomToERC20Contract d) = none)
      ∧ (IsCosmosCoin d = true →
          strings.Contains d GravityDenomSeparator = false ∧ d ≠ GravityDenomPrefix) := by
  rcases validate_success_shape h with ⟨hidx, _, hne⟩ | ⟨s, rfl, _, hve⟩
  · constructor
    · intro htok
      have hd := (eq_gravityDenom_of_isEthereumERC20Token htok).1
      have hsome : strings.Index d.data ['/'] = some "gravity".data.length := by
        rw [hd, gravityDenom_data]
        exact index_singleton_append _ _ separator_not_in_prefix
      rw [hidx] at hsome
      simp at hsome
    · intro _
      exact ⟨contains_separator_eq_false.mpr hidx, hne⟩
  · constructor
    · intro _
      rw [contract_of_gravityDenom]
      exact hve
    · intro hcoin
      simp [IsCosmosCoin, isEthereumERC20Token_gravityDenom] at hcoin

theorem classification_of_valid_witness :
    (IsEthereumERC20Token "gravity/0xa478c2975ab1ea89e8196811f51a7b7ade33eb11" = true →
        ValidateEthAddress (GravityDenomToERC20Contract
          "gravity/0xa478c2975ab1ea89e8196811f51a7b7ade33eb11") = none)
      ∧ (IsCosmosCoin "gravity/0xa478c2975ab1ea89e8196811f51a7b7ade33eb11" = true →
          strings.Contains "gravity/0xa478c2975ab1ea89e8196811f51a7b7ade33eb11"
              GravityDenomSeparator = false
            ∧ "gravity/0xa478c2975ab1ea89e8196811f51a7b7ade33eb11" ≠ GravityDenomPrefix) :=
  classification_of_valid sdk.ValidateDenom ValidateEthAddress
    "gravity/0xa478c2975ab1ea89e8196811f51a7b7ade33eb11" (by decide)

/-- C17: a valid bridged identifier has exactly `GravityDenomLen` bytes: every denomination
that `ValidateGravityDenom` accepts and that is an Ethereum ERC20 token has that length, and
so has `GravityDenom a` for every `a` of length `ETHContractAddressLen`. -/
theorem len_of_valid_bridged (vd : String → Option Error) (d : String) :
    (ValidateGravityDenom vd ValidateEthAddress d = .returns none →
        IsEthereumERC20Token d = true → len d = GravityDenomLen)
      ∧ (∀ a : String, len a = ETHContractAddressLen →
        len (GravityDenom a) = GravityDenomLen) := by
  have hlen : GravityDenomLen = 8 + ETHContractAddressLen := by decide
  constructor
  · intro h htok
    rcases validate_success_shape h with ⟨hidx, _, _⟩ | ⟨s, rfl, _, hve⟩
    · rw [index_of_isEthereumERC20Token htok] at hidx
      simp at hidx
    · rw [len_gravityDenom, len_of_valid_address hve, hlen]
  · intro a ha
    rw [len_gravityDenom, ha, hlen]

theorem len_of_valid_bridged_witness :
    len "gravity/0xa478c2975ab1ea89e8196811f51a7b7ade33eb11" = GravityDenomLen
      ∧ len (GravityDenom "0xa478c2975ab1ea89e8196811f51a7b7ade33eb11") = GravityDenomLen :=
  ⟨(len_of_valid_bridged sdk.ValidateDenom
      "gravity/0xa478c2975ab1ea89e8196811f51a7b7ade33eb11").1 (by decide) (by decide),
    (len_of_valid_bridged sdk.ValidateDenom "").2
      "0xa478c2975ab1ea89e8196811f51a7b7ade33eb11" (by decide)⟩

/-- C18: a denomination that passes the base validator and whose part before the first
separator is not the prefix is rejected with the `ErrInvalidGravityDenom` error, whatever
follows the separator and whatever the address validator. -/
theorem validateGravityDenom_other_first_part (vd ve : String → Option Error) (p t : String)
    (hvd : vd (p ++ GravityDenomSeparator ++ t) = none)
    (hfirst : strings.Contains p GravityDenomSeparator = false)
    (hp : p ≠ GravityDenomPrefix) :
    ValidateGravityDenom vd ve (p ++ GravityDenomSeparator ++ t)
        = .returns (some malformedDenom)
      ∧ failsWith (ValidateGravityDenom vd ve (p ++ GravityDenomSeparator ++ t))
          ErrInvalidGravityDenom = true := by
  have h : ValidateGravityDenom vd ve (p ++ GravityDenomSeparator ++ t)
      = .returns (some malformedDenom) := by
    rw [validate_of_separator hvd p.data t.data (by simp [GravityDenomSeparator])
      (index_singleton_none.mp (contains_separator_eq_false.mp hfirst))]
    have hp2 : (⟨p.data⟩ : String) ≠ GravityDenomPrefix := hp
    simp [hp2]
  refine ⟨h, ?_⟩
  rw [h]
  decide

theorem validateGravityDenom_other_first_part_witness :
    (ValidateGravityDenom sdk.ValidateDenom ValidateEthAddress
          ("ibc" ++ GravityDenomSeparator ++ "abc") = .returns (some malformedDenom)
        ∧ failsWith (ValidateGravityDenom sdk.ValidateDenom ValidateEthAddress
            ("ibc" ++ GravityDenomSeparator ++ "abc")) ErrInvalidGravityDenom = true)
      ∧ (ValidateGravityDenom sdk.ValidateDenom ValidateEthAddress
          ("gravity2" ++ GravityDenomSeparator ++ "0xa478c2975ab1ea89e8196811f51a7b7ade33eb11")
            = .returns (some malformedDenom)
        ∧ failsWith (ValidateGravityDenom sdk.ValidateDenom ValidateEthAddress
            ("gravity2" ++ GravityDenomSeparator
              ++ "0xa478c2975ab1ea89e8196811f51a7b7ade33eb11")) ErrInvalidGravityDenom = true) :=
  ⟨validateGravityDenom_other_first_part sdk.ValidateDenom ValidateEthAddress "ibc" "abc"
      (by decide) (by decide) (by decide),
    validateGravityDenom_other_first_part sdk.ValidateDenom ValidateEthAddress "gravity2"
      "0xa478c2975ab1ea89e8196811f51a7b7ade33eb11" (by decide) (by decide) (by decide)⟩

/-- C19: `ValidateGravityDenom` never panics on `denomSplit[1]`: for every input, when
neither the malformed case nor the native case of the `switch` fires, so that control
reaches the address validation, the split has exactly two parts, the first the prefix and
the second not blank. -/
theorem denomSplit_second_in_range (vd ve : String → Option Error) (d : String) :
    ValidateGravityDenom vd ve d ≠ .panics
      ∧ (malformedCase d (strings.SplitN d GravityDenomSeparator 2) = false →
          nativeCase d (strings.SplitN d GravityDenomSeparator 2) = false →
          ∃ s : String, strings.SplitN d GravityDenomSeparator 2 = [GravityDenomPrefix, s]
            ∧ strings.TrimSpace s ≠ "") := by
  have hshape : malformedCase d (strings.SplitN d GravityDenomSeparator 2) = false →
      nativeCase d (strings.SplitN d GravityDenomSeparator 2) = false →
      ∃ s : String, strings.SplitN d GravityDenomSeparator 2 = [GravityDenomPrefix, s]
        ∧ strings.TrimSpace s ≠ "" := by
    rw [splitN_separator]
    cases hidx : strings.Index d.data ['/'] with
    | none =>
      intro h1 h2
      simp only [malformedCase, nativeCase, decide_eq_false_iff_not] at h1 h2
      simp at h1 h2
      exact absurd (h2) h1.1
    | some m =>
      intro h1 _
      simp only [malformedCase, decide_eq_false_iff_not] at h1
      simp at h1
      exact ⟨_, by simp only [h1.2.1], h1.2.2⟩
  refine ⟨?_, hshape⟩
  rw [validateGravityDenom_unfold]
  cases vd d with
  | some e => simp
  | none =>
    simp only
    split
    · simp
    · split
      · simp
      · rename_i hm hn
        obtain ⟨s, hs, _⟩ := hshape (by simpa using hm) (by simpa using hn)
        rw [hs]
        cases hve : ve s <;> simp [hve]

theorem denomSplit_second_in_range_witness :
    ValidateGravityDenom sdk.ValidateDenom ValidateEthAddress "gravity/0xabc" ≠ .panics
      ∧ ∃ s : String,
          strings.SplitN "gravity/0xabc" GravityDenomSeparator 2 = [GravityDenomPrefix, s]
            ∧ strings.TrimSpace s ≠ "" :=
  ⟨(denomSplit_second_in_range sdk.ValidateDenom ValidateEthAddress "gravity/0xabc").1,
    (denomSplit_second_in_range sdk.ValidateDenom ValidateEthAddress "gravity/0xabc").2
      (by decide) (by decide)⟩

/-- C20: the reverse round trip. On an Ethereum ERC20 token `d`, building from the extracted
address gives `d` back; on a Cosmos coin `d`, it gives prefix + separator + `d`, which is
not `d`. -/
theorem gravityDenom_gravityDenomToERC20Contract (d : String) :
    (IsEthereumERC20Token d = true → GravityDenom (GravityDenomToERC20Contract d) = d)
      ∧ (IsCosmosCoin d = true →
          GravityDenom (GravityDenomToERC20Contract d)
              = GravityDenomPrefix ++ GravityDenomSeparator ++ d
            ∧ GravityDenom (GravityDenomToERC20Contract d) ≠ d) := by
  constructor
  · intro h
    obtain ⟨h1, h2⟩ := eq_gravityDenom_of_isEthereumERC20Token h
    rw [h2]
    exact h1.symm
  · intro h
    have hf : IsEthereumERC20Token d = false := by simpa [IsCosmosCoin] using h
    rw [contract_of_not_isEthereumERC20Token hf]
    refine ⟨rfl, ?_⟩
    intro e
    have := congrArg (fun s => s.data.length) e
    simp [gravityDenom_data] at this
    omega

theorem gravityDenom_gravityDenomToERC20Contract_witness :
    GravityDenom (GravityDenomToERC20Contract "gravity/0xabc") = "gravity/0xabc"
      ∧ (GravityDenom (GravityDenomToERC20Contract "uatom")
            = GravityDenomPrefix ++ GravityDenomSeparator ++ "uatom"
          ∧ GravityDenom (GravityDenomToERC20Contract "uatom") ≠ "uatom") :=
  ⟨(gravityDenom_gravityDenomToERC20Contract "gravity/0xabc").1 (by decide),
    (gravityDenom_gravityDenomToERC20Contract "uatom").2 (by decide)⟩
